import Mathlib

/-!
Shallow embedding of the recipe-extraction lambda
(`lambda-package-filtered/lambda_function.py`) and proofs about its
quality scorer, tier-acceptance gate, merge engine and finalizer.

Conventions of the embedding:
* Python `str` is Lean `String`; string algorithms are written over
  `List Char` (the `.data` of a `String`).
* Python `float` is `ℚ` (exact arithmetic; the scores in the source are
  small decimal constants).
* A recipe dict is the structure `Recipe` below, carrying exactly the keys
  the verified functions read or write.  Keys that the finalizer only
  transforms in place and that no verified property observes
  (`ingredient_sections`, `instruction_groups`, `recipe_notes`,
  `nutrition`, `build`) are omitted.
* A value that Python stores as "int or str" (`servings`, `prep_time`) is
  the sum type `PyV`; `None` / missing keys are `Option`.
-/

namespace LFL

/-- Whitespace for Python's `\s` / `str.strip()` (ASCII part plus NBSP). -/
def isWsChar (c : Char) : Bool :=
  c = ' ' || c = '\t' || c = '\n' || c = '\r' || c = '\x0b' || c = '\x0c' || c = '\xa0'

/-- ASCII lowercasing, modelling `str.lower()` on the ASCII titles and
ingredient strings the pipeline handles. -/
def lowerL (l : List Char) : List Char := l.map Char.toLower

/-- `l.dropWhile` from both ends: Python `str.strip()`. -/
def trimL (l : List Char) : List Char :=
  ((l.dropWhile isWsChar).reverse.dropWhile isWsChar).reverse

/-- Does `hay` start with `needle`? -/
def startsWithL : List Char → List Char → Bool
  | [], _ => true
  | _ :: _, [] => false
  | a :: as, b :: bs => a = b && startsWithL as bs

/-- Python's substring test `needle in hay`. -/
def isSubL (needle : List Char) : List Char → Bool
  | [] => startsWithL needle []
  | hay@(_ :: rest) => startsWithL needle hay || isSubL needle rest

/-- `needle in hay` on strings. -/
def containsSub (hay needle : String) : Bool := isSubL needle.data hay.data

def lowerS (s : String) : String := ⟨lowerL s.data⟩

def trimS (s : String) : String := ⟨trimL s.data⟩

/-- A Python value that the source stores as either `int` or `str`. -/
inductive PyV where
  | int (n : Int)
  | str (s : String)
deriving DecidableEq, Repr

/-- Python truthiness of a `PyV`. -/
def PyV.truthy : PyV → Bool
  | .int n => n ≠ 0
  | .str s => s ≠ ""

/-- Truthiness of an optional value (`None` is falsy). -/
def optTruthy : Option PyV → Bool
  | none => false
  | some v => v.truthy

/-- A candidate recipe record (the dict threaded through the pipeline),
restricted to the keys the verified functions use. -/
structure Recipe where
  title : String := ""
  ingredients : List String := []
  instructions : List String := []
  image : String := ""
  servings : Option PyV := none
  prep_time : Option PyV := none
  prep_time_minutes : Option PyV := none
  total_time : Option Int := none
  total_time_minutes : Option Int := none
  quality_score : Option ℚ := none
  metadata_bot_wall : Bool := false
  site_link : Option String := none
  site_name : Option String := none
deriving DecidableEq, Repr

/-- `is_bot_wall`: bot/anti-scrape phrase detector. -/
def is_bot_wall (t : String) : Bool :=
  ["please verify you are a human", "are you a robot", "cloudflare",
   "attention required", "blocked", "access denied"].any
    (fun p => containsSub (lowerS t) p)

/-- `is_valid_title`: rejects error pages, too-short titles and placeholders. -/
def is_valid_title (title : String) : Bool :=
  if title = "" then false
  else
    let tl := trimS (lowerS title)
    if ["page not found", "404", "error", "oops", "not found", "access denied",
        "we can't find", "we cant find", "we cannot find", "not available",
        "recipe not found", "search results", "default article title"].any
         (fun p => containsSub tl p) then false
    else if tl.data.length < 3 then false
    else if tl = "untitled recipe" || tl = "recipe" || tl = "no title" then false
    else true

/-- Does an ingredient string contain one of the generic filler nouns? -/
def isGenericIngredient (ing : String) : Bool :=
  ["ingredient", "item", "component", "element"].any
    (fun g => containsSub (lowerS ing) g)

/-- Number of ingredient strings containing a generic filler noun. -/
def genericCount (ings : List String) : Nat :=
  (ings.filter isGenericIngredient).length

/-- Python's two-argument `min`, which the scorer applies as
`min(score, 1.0)`; kept as an executable `if` (it agrees with `min`). -/
def pyMin (a b : ℚ) : ℚ := if a ≤ b then a else b

lemma pyMin_eq_min (a b : ℚ) : pyMin a b = min a b := by
  rw [pyMin, min_def]

/-- `is_likely_hallucination`: exactly-20 ingredients, >30% generic
ingredients, or an invalid title (the source's if-chain of three tests). -/
def is_likely_hallucination (r : Recipe) : Bool :=
  (r.ingredients.length == 20) ||
  (!r.ingredients.isEmpty &&
    decide ((genericCount r.ingredients : ℚ) / (r.ingredients.length : ℚ) > 3/10)) ||
  !(is_valid_title r.title)

/-- The 0.30 / 0.15 / 0 list-completeness weight used for both the
ingredients and the instructions component of the quality score. -/
def listComponent (n : ℕ) : ℚ :=
  if n ≥ 3 then 3/10 else if n ≥ 1 then 3/20 else 0

/-- The weighted completeness sum of `calculate_quality_score`
(title 0.20, lists 0.30 each, image 0.10, servings and prep time 0.05). -/
def qualityComponents (r : Recipe) : ℚ :=
  (if r.title ≠ "" && r.title ≠ "Untitled Recipe" then 1/5 else 0) +
  listComponent r.ingredients.length + listComponent r.instructions.length +
  (if r.image ≠ "" then 1/10 else 0) +
  (if optTruthy r.servings then 1/20 else 0) +
  (if optTruthy r.prep_time then 1/20 else 0)

/-- `calculate_quality_score`: hard-rejects invalid titles and likely
hallucinations to exactly 0.0, then sums completeness weights, capped at 1. -/
def calculate_quality_score (r : Recipe) : ℚ :=
  if ¬ is_valid_title r.title then 0
  else if is_likely_hallucination r then 0
  else pyMin (qualityComponents r) 1

/-! ### Tier acceptance gate (`calculate_field_confidence`,
`calculate_weighted_score`, `detect_red_flags`, `should_accept_tier`) -/

/-- Per-field confidence scores. -/
structure Confs where
  title : ℚ
  image : ℚ
  ingredients : ℚ
  instructions : ℚ
  servings : ℚ
  total_time : ℚ
deriving DecidableEq

/-- Tier-specific confidence defaults. -/
def baseConf (tier : String) : Confs :=
  if tier = "deterministic" then
    ⟨9/10, 9/10, 4/5, 4/5, 7/10, 7/10⟩
  else if tier = "spoonacular" then
    ⟨4/5, 4/5, 3/4, 3/5, 7/10, 3/5⟩
  else
    ⟨7/10, 7/10, 7/10, 7/10, 7/10, 7/10⟩

/-- Servings confidence: halved when servings is missing, falsy or `< 1`.
The source compares `servings < 1`, which is only well-typed for the
int-or-absent servings the tier pipeline carries; a non-empty string
servings (video path only) is modelled as full confidence. -/
def servingsConf (s : Option PyV) (base : ℚ) : ℚ :=
  match s with
  | none => base * (1/2)
  | some (.int n) => if n = 0 || n < 1 then base * (1/2) else base
  | some (.str t) => if t = "" then base * (1/2) else base

/-- Truthiness of an optional minute count (`None` and `0` are falsy, so
`a or b` is truthy iff either is a non-zero value). -/
def timeTruthy (x : Option Int) : Bool :=
  match x with
  | some n => n ≠ 0
  | none => false

/-- `calculate_field_confidence`. -/
def calculate_field_confidence (r : Recipe) (tier : String) : Confs :=
  let b := baseConf tier
  { title :=
      if r.title = "" || r.title = "Untitled Recipe" then 0
      else if r.title.data.length < 3 || r.title.data.length > 200 then b.title * (1/2)
      else if ["allrecipes", "food network", "taste of home"].any
          (fun s => containsSub (lowerS r.title) s) then b.title * (7/10)
      else b.title
    image :=
      if r.image = "" || ¬ startsWithL "https://".data r.image.data then 0
      else if ["logo", "icon", "favicon"].any
          (fun s => containsSub (lowerS r.image) s) then b.image * (3/10)
      else b.image
    ingredients :=
      if r.ingredients.length < 4 then b.ingredients * (3/10)
      else if r.ingredients.length < 8 then b.ingredients * (7/10)
      else b.ingredients
    instructions :=
      if r.instructions.length < 4 then b.instructions * (3/10)
      else if r.instructions.length < 6 then b.instructions * (7/10)
      else b.instructions
    servings := servingsConf r.servings b.servings
    total_time :=
      if timeTruthy r.total_time_minutes || timeTruthy r.total_time then b.total_time
      else b.total_time * (1/2) }

/-- `calculate_weighted_score` over the fixed weight table. -/
def calculate_weighted_score (c : Confs) : ℚ :=
  c.title * (3/20) + c.image * (3/20) + c.ingredients * (3/10) +
  c.instructions * (3/10) + c.servings * (1/20) + c.total_time * (1/20)

/-- Blocked-content phrases checked against the title. -/
def blockedContent (r : Recipe) : Bool :=
  ["access denied", "instructions not available", "blocked"].any
    (fun p => containsSub (lowerS r.title) p)

/-- Dedup-sentinel present among the instruction steps. -/
def sentinelStep (r : Recipe) : Bool :=
  r.instructions.any (fun s => containsSub (lowerS s) "instructions not available")

/-- Editorial watermark substrings in the space-joined ingredient plus
instruction text. -/
def watermarkText (r : Recipe) : Bool :=
  ["dotdash", "meredith", "food studios"].any
    (fun w => containsSub (lowerS (String.intercalate " " (r.ingredients ++ r.instructions))) w)

/-- `detect_red_flags`: true when the collected red-flag list is non-empty. -/
def detect_red_flags (r : Recipe) : Bool :=
  is_bot_wall r.title || blockedContent r || r.ingredients.length < 3 ||
  (if r.instructions.length < 3 then true else sentinelStep r) ||
  watermarkText r || r.instructions.length = 1

/-- `should_accept_tier`, returning the accept decision and the weighted
score (the log-message component of the source's triple is omitted). -/
def should_accept_tier (r : Recipe) (tier : String) (min_trigger_score : ℚ) :
    Bool × ℚ :=
  let confidences := calculate_field_confidence r tier
  let weighted_score := calculate_weighted_score confidences
  let has_red_flags := detect_red_flags r
  if r.metadata_bot_wall then (false, weighted_score)
  else if is_bot_wall r.title then (false, weighted_score)
  else if has_red_flags then (false, weighted_score)
  else if weighted_score < min_trigger_score then (false, weighted_score)
  else (true, weighted_score)

/-- The red-flag boolean unfolded into the six flag conditions. -/
lemma detect_red_flags_iff (r : Recipe) :
    detect_red_flags r = true ↔
      (is_bot_wall r.title = true ∨ blockedContent r = true ∨
       r.ingredients.length < 3 ∨
       (r.instructions.length < 3 ∨ sentinelStep r = true) ∨
       watermarkText r = true ∨ r.instructions.length = 1) := by
  unfold detect_red_flags
  by_cases h3 : r.instructions.length < 3
  · simp [h3]
  · simp [h3]
    tauto

/-- C1: the tier gate accepts a record iff it has none of the six red
flags, is not a bot wall (neither flagged in metadata nor detected on the
title), and its weighted score — the confidence-weighted sum with weights
title 0.15, image 0.15, ingredients 0.30, instructions 0.30,
servings 0.05, total time 0.05 — reaches the configurable
`min_trigger_score` threshold (the handler's default is 0.60). -/
theorem should_accept_tier_iff (r : Recipe) (tier : String) (m : ℚ) :
    ((should_accept_tier r tier m).1 = true ↔
      (¬ (is_bot_wall r.title = true ∨ blockedContent r = true ∨
          r.ingredients.length < 3 ∨
          (r.instructions.length < 3 ∨ sentinelStep r = true) ∨
          watermarkText r = true ∨ r.instructions.length = 1) ∧
       r.metadata_bot_wall = false ∧
       calculate_weighted_score (calculate_field_confidence r tier) ≥ m)) ∧
    (∀ c : Confs, calculate_weighted_score c =
      (3/20 : ℚ) * c.title + (3/20) * c.image + (3/10) * c.ingredients +
      (3/10) * c.instructions + (1/20) * c.servings + (1/20) * c.total_time) := by
  constructor
  · have hrf := detect_red_flags_iff r
    have key : (should_accept_tier r tier m).1 = true ↔
        (detect_red_flags r = false ∧ r.metadata_bot_wall = false ∧
         is_bot_wall r.title = false ∧
         m ≤ calculate_weighted_score (calculate_field_confidence r tier)) := by
      unfold should_accept_tier
      by_cases h1 : r.metadata_bot_wall <;> by_cases h2 : is_bot_wall r.title <;>
        by_cases h3 : detect_red_flags r <;>
          by_cases h4 : calculate_weighted_score (calculate_field_confidence r tier) < m <;>
            simp [h1, h2, h3, h4, not_lt, le_of_not_lt]
    rw [key, ← hrf]
    constructor
    · rintro ⟨hf, hm, _, hs⟩
      exact ⟨by simp [hf], hm, hs⟩
    · rintro ⟨hd, hm, hs⟩
      have hf : detect_red_flags r = false := by
        cases hfl : detect_red_flags r
        · rfl
        · exact absurd hfl hd
      have hb : is_bot_wall r.title = false := by
        cases hbw : is_bot_wall r.title
        · rfl
        · exact absurd (hrf.mpr (Or.inl hbw)) (by simp [hf])
      exact ⟨hf, hm, hb, hs⟩
  · intro c
    unfold calculate_weighted_score
    ring

/-- C2: a record whose ingredients list has exactly 20 entries scores
exactly 0.0, whatever its other fields hold: the hallucination
short-circuit fires before any weighted component is added. -/
theorem quality_zero_of_twenty_ingredients (r : Recipe)
    (h : r.ingredients.length = 20) : calculate_quality_score r = 0 := by
  have hh : is_likely_hallucination r = true := by
    unfold is_likely_hallucination
    simp [h]
  unfold calculate_quality_score
  by_cases hv : is_valid_title r.title = true
  · simp [hv, hh]
  · simp [hv]

/-- Witness for C2 at a fully-populated concrete record. -/
theorem quality_zero_of_twenty_ingredients_witness :
    (List.replicate 20 "1 cup flour").length = 20 ∧
    calculate_quality_score
      { title := "Chocolate Cake", ingredients := List.replicate 20 "1 cup flour",
        instructions := ["Mix.", "Bake.", "Cool."], image := "https://x.com/a.jpg",
        servings := some (.int 4), prep_time := some (.int 30) } = 0 :=
  ⟨by decide, quality_zero_of_twenty_ingredients _ (by decide)⟩

/-! ### Quality monotonicity (C6) -/

lemma listComponent_mono {n m : ℕ} (h : n ≤ m) : listComponent n ≤ listComponent m := by
  unfold listComponent
  split_ifs <;> try norm_num
  all_goals omega

lemma qualityComponents_nonneg (r : Recipe) : 0 ≤ qualityComponents r := by
  unfold qualityComponents listComponent
  split_ifs <;> norm_num

lemma quality_score_nonneg (r : Recipe) : 0 ≤ calculate_quality_score r := by
  unfold calculate_quality_score pyMin
  split_ifs <;> first | exact qualityComponents_nonneg r | norm_num

/-- Appending an ingredient free of generic filler nouns does not change
the generic-ingredient count. -/
lemma genericCount_append_nongeneric (l : List String) (x : String)
    (hx : isGenericIngredient x = false) :
    genericCount (l ++ [x]) = genericCount l := by
  unfold genericCount
  rw [List.filter_append]
  simp [List.filter_cons, hx]

/-- C6 counterexample: appending the perfectly ordinary ingredient
"1 cup sugar" to a valid 19-ingredient record drops its quality score
from 0.5 to 0.0, because the result hits the exactly-20-ingredients
hallucination veto.  The claimed monotonicity is therefore false. -/
theorem quality_monotonicity_counterexample :
    ¬ (calculate_quality_score
        { title := "Chocolate Cake",
          ingredients := List.replicate 19 "1 cup flour" ++ ["1 cup sugar"] } ≥
       calculate_quality_score
        { title := "Chocolate Cake",
          ingredients := List.replicate 19 "1 cup flour" }) := by
  with_unfolding_all decide

/-- C6 amended: appending one valid ingredient (one that contains no
generic filler noun) to a record with a valid title never decreases the
quality score, provided the resulting list does not hit the
exactly-20-ingredients hallucination veto (that is, the record did not
have exactly 19 ingredients before). -/
theorem quality_score_append_ingredient_mono (r : Recipe) (x : String)
    (hv : is_valid_title r.title = true)
    (hx : isGenericIngredient x = false)
    (hn : r.ingredients.length ≠ 19) :
    calculate_quality_score r ≤
      calculate_quality_score { r with ingredients := r.ingredients ++ [x] } := by
  by_cases hh : is_likely_hallucination r = true
  · have h0 : calculate_quality_score r = 0 := by
      unfold calculate_quality_score
      simp [hh]
    rw [h0]
    exact quality_score_nonneg _
  · have hhf : is_likely_hallucination r = false := by
      cases h : is_likely_hallucination r
      · rfl
      · exact absurd h hh
    have hg := genericCount_append_nongeneric r.ingredients x hx
    have hh2 : is_likely_hallucination { r with ingredients := r.ingredients ++ [x] } = false := by
      unfold is_likely_hallucination at hhf ⊢
      simp only [Bool.or_eq_false_iff, Bool.and_eq_false_iff, Bool.not_eq_false',
        decide_eq_false_iff_not, not_lt, beq_eq_false_iff_ne, ne_eq] at hhf ⊢
      obtain ⟨⟨h20, hrat⟩, hvt⟩ := hhf
      refine ⟨⟨?_, ?_⟩, hvt⟩
      · simp only [List.length_append, List.length_cons, List.length_nil]
        omega
      · right
        rw [hg]
        have hlen : (r.ingredients ++ [x]).length = r.ingredients.length + 1 := by simp
        rw [hlen]
        by_cases hl : r.ingredients.isEmpty
        · have he : r.ingredients = [] := by
            cases hi : r.ingredients
            · rfl
            · rw [hi] at hl
              simp at hl
          rw [he]
          norm_num [genericCount]
        · have hrat2 : ((genericCount r.ingredients : ℚ) / (r.ingredients.length : ℚ)) ≤ 3/10 := by
            rcases hrat with h | h
            · exact absurd h hl
            · exact h
          have hlen1 : 1 ≤ r.ingredients.length := by
            cases hi : r.ingredients
            · rw [hi] at hl
              simp at hl
            · simp
          have h0a : (0:ℚ) ≤ (genericCount r.ingredients : ℚ) := by positivity
          have h0b : (0:ℚ) < (r.ingredients.length : ℚ) := by exact_mod_cast hlen1
          have hstep : ((genericCount r.ingredients : ℚ)) / ((r.ingredients.length : ℚ) + 1)
              ≤ (genericCount r.ingredients : ℚ) / (r.ingredients.length : ℚ) :=
            div_le_div_of_nonneg_left h0a h0b (by linarith)
          push_cast
          exact le_trans hstep hrat2
    unfold calculate_quality_score
    simp only [hv, hhf, hh2, not_true, if_false, Bool.false_eq_true, ite_false]
    rw [pyMin_eq_min, pyMin_eq_min]
    apply min_le_min _ le_rfl
    unfold qualityComponents
    have hlc : listComponent r.ingredients.length ≤
        listComponent (r.ingredients ++ [x]).length := by
      apply listComponent_mono
      simp
    gcongr

/-- Witness for C6 amended at a concrete two-ingredient record. -/
theorem quality_score_append_ingredient_mono_witness :
    is_valid_title "Pasta Bake" = true ∧
    isGenericIngredient "1 cup sugar" = false ∧
    (["1 cup flour", "2 eggs"] : List String).length ≠ 19 ∧
    calculate_quality_score
        { title := "Pasta Bake", ingredients := ["1 cup flour", "2 eggs"] } ≤
      calculate_quality_score
        { title := "Pasta Bake",
          ingredients := ["1 cup flour", "2 eggs"] ++ ["1 cup sugar"] } :=
  ⟨by decide, by decide, by decide,
   quality_score_append_ingredient_mono
     { title := "Pasta Bake", ingredients := ["1 cup flour", "2 eggs"] }
     "1 cup sugar" (by decide) (by decide) (by decide)⟩

/-! ### Merge engine (`merge_ai_results_patch_only`) -/

/-- The record shape seen by the merge engine: the eight merged fields,
each possibly absent. -/
structure MRec where
  title : Option String := none
  image : Option String := none
  ingredients : Option (List String) := none
  instructions : Option (List String) := none
  servings : Option PyV := none
  prep_time : Option PyV := none
  cook_time : Option PyV := none
  total_time : Option PyV := none
deriving DecidableEq

/-- `base_confidences` dict restricted to the eight merged fields
(`dict.get(field, 0.0)` of the source). -/
structure MergeConfs where
  title : ℚ := 0
  image : ℚ := 0
  ingredients : ℚ := 0
  instructions : ℚ := 0
  servings : ℚ := 0
  prep_time : ℚ := 0
  cook_time : ℚ := 0
  total_time : ℚ := 0
deriving DecidableEq

/-- Truthiness of an optional string. -/
def strTruthy : Option String → Bool
  | none => false
  | some s => s ≠ ""

/-- Truthiness of an optional list. -/
def listTruthy : Option (List String) → Bool
  | none => false
  | some l => !l.isEmpty

/-- Merge logic for the list fields (`ingredients`, `instructions`):
missing/low-confidence base adopts a truthy patch; a high-confidence
(≥ 0.8) base is kept unless the patch list is more than 20% longer;
medium confidence adopts any truthy patch. -/
def mergeListField (bv av : Option (List String)) (c : ℚ) : Option (List String) :=
  if listTruthy bv = false ∨ c < 1/2 then (if listTruthy av then av else bv)
  else if c ≥ 4/5 then
    if listTruthy av then
      match av, bv with
      | some al, some bl =>
          if (al.length : ℚ) > (bl.length : ℚ) * (6/5) then av else bv
      | _, _ => bv
    else bv
  else if listTruthy av then av else bv

/-- Merge logic for `title`: at medium confidence the patch wins only if
strictly longer. -/
def mergeTitle (bv av : Option String) (c : ℚ) : Option String :=
  if strTruthy bv = false ∨ c < 1/2 then (if strTruthy av then av else bv)
  else if c ≥ 4/5 then bv
  else if strTruthy av then
    match av, bv with
    | some a, some b => if a.data.length > b.data.length then av else bv
    | _, _ => bv
  else bv

/-- Merge logic for `image`: at medium confidence the patch wins only if
it is an https URL. -/
def mergeImage (bv av : Option String) (c : ℚ) : Option String :=
  if strTruthy bv = false ∨ c < 1/2 then (if strTruthy av then av else bv)
  else if c ≥ 4/5 then bv
  else if strTruthy av then
    match av with
    | some a => if startsWithL "https://".data a.data then av else bv
    | none => bv
  else bv

/-- Merge logic for the remaining scalar fields: at medium confidence any
truthy patch wins; a high-confidence base is always kept. -/
def mergeOther (bv av : Option PyV) (c : ℚ) : Option PyV :=
  if optTruthy bv = false ∨ c < 1/2 then (if optTruthy av then av else bv)
  else if c ≥ 4/5 then bv
  else if optTruthy av then av else bv

/-- `merge_ai_results_patch_only`: field-wise patch-only merge of an AI
result into the base record. -/
def merge_ai_results_patch_only (base ai : MRec) (bc : MergeConfs) : MRec :=
  { title := mergeTitle base.title ai.title bc.title
    image := mergeImage base.image ai.image bc.image
    ingredients := mergeListField base.ingredients ai.ingredients bc.ingredients
    instructions := mergeListField base.instructions ai.instructions bc.instructions
    servings := mergeOther base.servings ai.servings bc.servings
    prep_time := mergeOther base.prep_time ai.prep_time bc.prep_time
    cook_time := mergeOther base.cook_time ai.cook_time bc.cook_time
    total_time := mergeOther base.total_time ai.total_time bc.total_time }

/-- C5: with a non-empty base ingredients list held at confidence ≥ 0.8,
the patch-only merge keeps the base ingredients unchanged whenever the
patch list is at most 20% longer; in particular a strictly shorter patch
list, or an absent one, never replaces the base list. -/
theorem merge_patch_only_keeps_high_conf_ingredients
    (base ai : MRec) (bc : MergeConfs) (bl : List String)
    (hb : base.ingredients = some bl) (hne : bl ≠ [])
    (hc : bc.ingredients ≥ 4/5) :
    (∀ al, ai.ingredients = some al → (al.length : ℚ) ≤ (bl.length : ℚ) * (6/5) →
       (merge_ai_results_patch_only base ai bc).ingredients = some bl) ∧
    (∀ al, ai.ingredients = some al → al.length < bl.length →
       (merge_ai_results_patch_only base ai bc).ingredients = some bl) ∧
    (ai.ingredients = none →
       (merge_ai_results_patch_only base ai bc).ingredients = some bl) := by
  have hbt : listTruthy base.ingredients = true := by
    rw [hb]
    simp [listTruthy, hne]
  have hnotlow : ¬ (bc.ingredients < 1/2) := not_lt.mpr (le_trans (by norm_num) hc)
  have key : ∀ av, (av = none ∨ ∃ al, av = some al ∧
        ¬ ((al.length : ℚ) > (bl.length : ℚ) * (6/5))) →
      mergeListField base.ingredients av bc.ingredients = some bl := by
    intro av hav
    unfold mergeListField
    rw [hb] at hbt ⊢
    have hcond : ¬ (listTruthy (some bl) = false ∨ bc.ingredients < 1/2) :=
      not_or.mpr ⟨by simp [hbt], hnotlow⟩
    rw [if_neg hcond, if_pos hc]
    rcases hav with h | ⟨al, hal, hle⟩
    · subst h
      simp [listTruthy]
    · subst hal
      by_cases hemp : al.isEmpty
      · simp [listTruthy, hemp]
      · simp only [listTruthy, hemp, Bool.not_false, if_true]
        rw [if_neg hle]
  refine ⟨?_, ?_, ?_⟩
  · intro al hal hle
    show mergeListField base.ingredients ai.ingredients bc.ingredients = some bl
    exact key _ (Or.inr ⟨al, hal, not_lt.mpr hle⟩)
  · intro al hal hlt
    show mergeListField base.ingredients ai.ingredients bc.ingredients = some bl
    refine key _ (Or.inr ⟨al, hal, not_lt.mpr ?_⟩)
    have h1 : (al.length : ℚ) ≤ (bl.length : ℚ) := by
      exact_mod_cast le_of_lt hlt
    have h2 : (0:ℚ) ≤ (bl.length : ℚ) := by positivity
    nlinarith
  · intro h
    show mergeListField base.ingredients ai.ingredients bc.ingredients = some bl
    exact key _ (Or.inl h)

/-- Witness for C5: a 0.9-confidence three-ingredient base and a
two-ingredient patch; the merge keeps the base list. -/
theorem merge_patch_only_keeps_high_conf_ingredients_witness :
    ({ ingredients := some ["2 cups flour", "1 egg", "salt"] } : MRec).ingredients =
        some ["2 cups flour", "1 egg", "salt"] ∧
    (["2 cups flour", "1 egg", "salt"] : List String) ≠ [] ∧
    (9/10 : ℚ) ≥ 4/5 ∧
    (["2 cups flour", "1 egg"] : List String).length <
        (["2 cups flour", "1 egg", "salt"] : List String).length ∧
    (merge_ai_results_patch_only
        { ingredients := some ["2 cups flour", "1 egg", "salt"] }
        { ingredients := some ["2 cups flour", "1 egg"] }
        { ingredients := 9/10 }).ingredients =
      some ["2 cups flour", "1 egg", "salt"] :=
  ⟨rfl, by decide, by norm_num, by decide,
   (merge_patch_only_keeps_high_conf_ingredients
      { ingredients := some ["2 cups flour", "1 egg", "salt"] }
      { ingredients := some ["2 cups flour", "1 egg"] }
      { ingredients := 9/10 }
      ["2 cups flour", "1 egg", "salt"] rfl (by decide) (by norm_num)).2.1
     ["2 cups flour", "1 egg"] rfl (by decide)⟩

/-! ### The finalizer's text normalization (`_normalize_text`) -/

/-- One character of an HTML entity name (scan up to the semicolon).
Python's `html.unescape` matches names of printable characters up to a
semicolon; ampersands and whitespace end the scan. -/
def isEntNameChar (c : Char) : Bool :=
  c ≠ ';' && c ≠ '&' && !(isWsChar c)

def isDigitChar (c : Char) : Bool := '0' ≤ c && c ≤ '9'

def isHexChar (c : Char) : Bool :=
  isDigitChar c || ('a' ≤ c && c ≤ 'f') || ('A' ≤ c && c ≤ 'F')

def natOfDigits (ds : List Char) : Nat :=
  ds.foldl (fun a c => a * 10 + (c.toNat - 48)) 0

def natOfHexDigits (ds : List Char) : Nat :=
  ds.foldl (fun a c =>
    a * 16 + (if isDigitChar c then c.toNat - 48
              else if 'a' ≤ c && c ≤ 'f' then c.toNat - 87 else c.toNat - 55)) 0

/-- Decode one semicolon-terminated HTML entity body.  Modelled from
Python's `html.unescape` restricted to the common named entities the
pipeline encounters and to numeric character references. -/
def decodeEntity (name : List Char) : Option Char :=
  match name with
  | '#' :: ds =>
    match ds with
    | 'x' :: hs => if !hs.isEmpty && hs.all isHexChar
        then some (Char.ofNat (natOfHexDigits hs)) else none
    | 'X' :: hs => if !hs.isEmpty && hs.all isHexChar
        then some (Char.ofNat (natOfHexDigits hs)) else none
    | _ => if !ds.isEmpty && ds.all isDigitChar
        then some (Char.ofNat (natOfDigits ds)) else none
  | _ =>
    if name = "amp".data then some '&'
    else if name = "lt".data then some '<'
    else if name = "gt".data then some '>'
    else if name = "quot".data then some '"'
    else if name = "apos".data then some '\''
    else if name = "nbsp".data then some ' '
    else none

/-- `html.unescape` model, fuelled so that it reduces in the kernel:
decode `&name;` / `&#nn;` sequences, leaving unrecognized ampersands
untouched.  `htmlUnescape` supplies fuel `l.length`, which always
suffices (each step consumes at least one character). -/
def htmlUnescapeF : Nat → List Char → List Char
  | 0, l => l
  | _ + 1, [] => []
  | fuel + 1, c :: rest =>
    if c = '&' then
      let name := rest.takeWhile isEntNameChar
      match rest.drop name.length with
      | ';' :: tail =>
        match decodeEntity name with
        | some d => d :: htmlUnescapeF fuel tail
        | none => c :: htmlUnescapeF fuel rest
      | _ => c :: htmlUnescapeF fuel rest
    else c :: htmlUnescapeF fuel rest

def htmlUnescape (l : List Char) : List Char := htmlUnescapeF l.length l

/-- Python `str.replace(old, new)`: replace every non-overlapping
occurrence left to right, fuelled so that it reduces in the kernel
(`l.length` fuel always suffices since `old` is non-empty at every call
site). -/
def replaceAllF (old new : List Char) : Nat → List Char → List Char
  | 0, l => l
  | _ + 1, [] => []
  | fuel + 1, c :: rest =>
    if !old.isEmpty && startsWithL old (c :: rest) then
      new ++ replaceAllF old new fuel ((c :: rest).drop old.length)
    else c :: replaceAllF old new fuel rest

def replaceAllL (old new hay : List Char) : List Char :=
  replaceAllF old new hay.length hay

/-- The character cleanups of `_normalize_text` that precede its
punctuation line: NBSP to space, hidden characters removed, Unicode
dashes folded to `-`.  The source applies these as sequential
`str.replace` calls whose patterns and outputs do not overlap, so one
character map is exact. -/
def charCleanA (c : Char) : List Char :=
  if c = ' ' then [' ']
  else if c = '​' ∨ c = '﻿' ∨ c = '�' then []
  else if c = '–' ∨ c = '—' then ['-']
  else [c]

/-- The punctuation line of `_normalize_text` is byte-mangled in the
source: every quote character on it is plain ASCII, so Python parses the
line as a no-op apostrophe replace (an identity, not modelled) followed
by ONE `str.replace` call whose pattern is the fifteen-character literal
lying between the line's two runs of three double quotes — the text
below — replaced by a single double quote.  No curly-quote folding
happens. -/
def mangledQuotePattern : List Char :=
  [',', ' ', '\'', '"', '\'', ')', '.', 'r', 'e', 'p', 'l', 'a', 'c', 'e', '(']

/-- The character cleanups of `_normalize_text` after its punctuation
line: bullets removed, fraction slash folded to `/`, checkbox-like
symbols removed.  Again sequential non-overlapping `str.replace` /
`re.sub` calls, so one character map is exact. -/
def charCleanB (c : Char) : List Char :=
  if c = '•' ∨ c = '●' ∨ c = '·' then []
  else if c = '⁄' then ['/']
  else if (0x25A0 ≤ c.toNat ∧ c.toNat ≤ 0x25FF) ∨ c.toNat = 0x2610 ∨
      c.toNat = 0x2611 ∨ c.toNat = 0x274F ∨ c.toNat = 0x2751 ∨ c.toNat = 0x2752 then []
  else [c]

/-- The bullet/dash class of the `LIST_PREFIX` regex. -/
def isDashBullet (c : Char) : Bool :=
  c = '-' || c = '–' || c = '—' || c = '•' || c = '●' ||
  c = '*' || c = '·'

/-- One application of the anchored `LIST_PREFIX` regex
`^\s*(?:\d+\s*[.)]\s*|[-–—•●*·]\s+)`: strips a single leading list
marker, or returns the input unchanged when the pattern does not match. -/
def stripListMarker (l : List Char) : List Char :=
  let rest := l.dropWhile isWsChar
  let ds := rest.takeWhile isDigitChar
  if !ds.isEmpty then
    match (rest.drop ds.length).dropWhile isWsChar with
    | c :: r3 => if c = '.' ∨ c = ')' then r3.dropWhile isWsChar else l
    | [] => l
  else
    match rest with
    | c :: r2 =>
      if isDashBullet c then
        if !(r2.takeWhile isWsChar).isEmpty then r2.dropWhile isWsChar else l
      else l
    | [] => l

/-- Worker for `collapseWs`: `inRun` records that the current whitespace
run has already emitted its replacement space. -/
def collapseWsAux (inRun : Bool) : List Char → List Char
  | [] => []
  | c :: rest =>
    if isWsChar c then
      if inRun then collapseWsAux true rest
      else
        match rest with
        | [] => [c]
        | d :: _ =>
          if isWsChar d then ' ' :: collapseWsAux true rest
          else c :: collapseWsAux false rest
    else c :: collapseWsAux false rest

/-- `re.sub(r"\s{2,}", " ", s)`: replace each maximal whitespace run of
length at least two by a single space; single whitespace characters are
kept as they are. -/
def collapseWs (l : List Char) : List Char := collapseWsAux false l

/-- Worker for `collapseWs1`. -/
def collapseWs1Aux (inRun : Bool) : List Char → List Char
  | [] => []
  | c :: rest =>
    if isWsChar c then
      if inRun then collapseWs1Aux true rest
      else ' ' :: collapseWs1Aux true rest
    else c :: collapseWs1Aux false rest

/-- `re.sub(r"\s+", " ", s)`: replace each maximal whitespace run by a
single space. -/
def collapseWs1 (l : List Char) : List Char := collapseWs1Aux false l

/-- Strip a trailing run of characters satisfying `p`
(`re.sub(r"[...]+$", "", s)`). -/
def stripTrailingRun (p : Char → Bool) (l : List Char) : List Char :=
  (l.reverse.dropWhile p).reverse

/-- `_normalize_text` on character lists: HTML unescape, the cleanups
before the punctuation line, the mangled-literal replacement that line
actually performs, the cleanups after it, strip, one leading list marker
removed, whitespace runs collapsed, strip. -/
def normalizeText (l : List Char) : List Char :=
  trimL (collapseWs (stripListMarker (trimL
    ((replaceAllL mangledQuotePattern ['"']
      ((htmlUnescape l).flatMap charCleanA)).flatMap charCleanB))))

/-- `_normalize_text`. -/
def normalize_text (s : String) : String := ⟨normalizeText s.data⟩

example : normalize_text "1. 2. foo" = "2. foo" := by decide
example : normalize_text
    ⟨['a', ',', ' ', '\'', '"', '\'', ')', '.', 'r', 'e', 'p', 'l', 'a', 'c',
      'e', '(', ' ', 'b']⟩ = ⟨['a', '"', ' ', 'b']⟩ := by decide
example : normalize_text "  Mix &amp; bake  the dough " = "Mix & bake the dough" := by decide
example : normalize_text "• 2 cups flour" = "2 cups flour" := by decide

/-! ### Ingredient quantity normalization and ingredient cleaning -/

/-- The Unicode fraction characters accepted as a leading quantity. -/
def isFracChar (c : Char) : Bool :=
  c = '¾' || c = '½' || c = '¼' || c = '⅓' || c = '⅔' ||
  c = '⅛' || c = '⅜' || c = '⅝' || c = '⅞'

/-- `re.match` of `^(\d+|\d+/\d+|\d+\.\d+|¾|½|¼|⅓|⅔|⅛|⅜|⅝|⅞)\s+`:
does the string open with a quantity followed by whitespace? -/
def startsWithNumber (l : List Char) : Bool :=
  let ds := l.takeWhile isDigitChar
  if !ds.isEmpty then
    match l.drop ds.length with
    | c :: r2 =>
      if isWsChar c then true
      else if c = '/' ∨ c = '.' then
        let ds2 := r2.takeWhile isDigitChar
        if ds2.isEmpty then false
        else
          match r2.drop ds2.length with
          | d :: _ => isWsChar d
          | [] => false
      else false
    | [] => false
  else
    match l with
    | c :: r2 =>
      if isFracChar c then
        match r2 with
        | d :: _ => isWsChar d
        | [] => false
      else false
    | [] => false

/-- The unit words that trigger prefixing a quantity of `1`. -/
def unitWordsNeedingOne : List String :=
  ["cup", "cups", "teaspoon", "teaspoons", "tsp", "tablespoon", "tablespoons",
   "tbsp", "pound", "pounds", "lb", "lbs", "ounce", "ounces", "oz", "pint",
   "pints", "pt", "quart", "quarts", "qt", "gallon", "gallons", "gal",
   "pinch", "dash", "handful", "slice", "slices", "piece", "pieces", "clove",
   "cloves", "sprig", "sprigs", "bunch", "bunches", "can", "cans", "package",
   "packages", "pkg", "jar", "jars", "bottle", "bottles", "head", "heads",
   "stalk", "stalks", "stick", "sticks"]

/-- First whitespace-separated word (`s.split()[0]`, or `""`). -/
def firstWord (l : List Char) : List Char :=
  (l.dropWhile isWsChar).takeWhile (fun c => !isWsChar c)

/-- `_normalize_ingredient_quantity`: prefix `"1 "` when the ingredient
starts with a bare unit word instead of a quantity. -/
def normalize_ingredient_quantity (ingredient : String) : String :=
  let ic := trimS ingredient
  if ic = "" ∨ ic.data.length < 3 then ingredient
  else
    let low := lowerL ic.data
    if startsWithNumber low then ic
    else if unitWordsNeedingOne.any (fun w => w.data = firstWord low) then
      ⟨'1' :: ' ' :: ic.data⟩
    else ic

/-- The ingredient-cleaning loop of `finalize_response`: normalize each
entry, fix missing quantities, keep entries longer than two characters,
and deduplicate case-insensitively (first occurrence wins). -/
def cleanIngredientsAux : List String → List String → List String
  | [], _ => []
  | it :: rest, seen =>
    let c := normalize_ingredient_quantity (normalize_text it)
    if c.data.length > 2 && !(seen.contains (lowerS c)) then
      c :: cleanIngredientsAux rest (lowerS c :: seen)
    else cleanIngredientsAux rest seen

def cleanIngredients (ings : List String) : List String := cleanIngredientsAux ings []

example : cleanIngredients ["cup of flour", "2 cups sugar", "Cup of Flour", "ab"] =
    ["1 cup of flour", "2 cups sugar"] := by decide

/-! ### Instruction deduplication -/

/-- `re.sub(r'^\d+[\.\)]\s*', '', s)`: strip one leading ordinal. -/
def stripNumMarker (l : List Char) : List Char :=
  let ds := l.takeWhile isDigitChar
  if ds.isEmpty then l
  else
    match l.drop ds.length with
    | c :: r => if c = '.' ∨ c = ')' then r.dropWhile isWsChar else l
    | [] => l

def isEndPunct (c : Char) : Bool :=
  c = '.' || c = ',' || c = ';' || c = ':' || c = '!' || c = '?'

/-- The comparison key of the dedup loop: lowercase, strip, leading
ordinal removed, whitespace collapsed, trailing punctuation removed. -/
def normStep (c : List Char) : List Char :=
  stripTrailingRun isEndPunct (trimL (collapseWs1 (stripNumMarker (trimL (lowerL c)))))

/-- Position-aligned equal characters of two strings (`zip` count). -/
def commonChars (a b : List Char) : Nat :=
  (List.zip a b).countP (fun p => p.1 = p.2)

/-- The 85%-similarity test applied when lengths differ by less than 10
and the candidate is longer than 15 characters. -/
def similarStep (n s : List Char) : Bool :=
  decide (((n.length : ℤ) - (s.length : ℤ)).natAbs < 10) && decide (n.length > 15) &&
  decide ((commonChars n s : ℚ) / (max n.length s.length : ℚ) > 17/20)

/-- Is the normalized step a duplicate of one already kept: exact match,
long-substring containment either way, or 85% positional similarity? -/
def isDupStep (n : List Char) (seen : List (List Char)) : Bool :=
  seen.contains n ||
  seen.any (fun s =>
    n = s || (decide (n.length > 20) && isSubL n s) ||
    (decide (s.length > 20) && isSubL s n) || similarStep n s)

/-- The dedup loop: normalize, keep steps longer than five characters
whose comparison key is not a duplicate of an earlier kept step. -/
def dedupStepsAux : List String → List (List Char) → List String
  | [], _ => []
  | step :: rest, seen =>
    let c := normalize_text step
    if c.data.length > 5 then
      let n := normStep c.data
      if isDupStep n seen then dedupStepsAux rest seen
      else c :: dedupStepsAux rest (n :: seen)
    else dedupStepsAux rest seen

/-- The instruction dedup block of `finalize_response`, including the
sentinel fallback that keeps the output non-empty. -/
def dedupSteps (steps : List String) : List String :=
  let cleaned := dedupStepsAux steps []
  if cleaned.isEmpty then ["Instructions not available."] else cleaned

example : dedupSteps ["1. Mix the dough well.", "Mix the dough well", "Bake it."] =
    ["Mix the dough well.", "Bake it."] := by decide
example : dedupSteps ["hi", "ok"] = ["Instructions not available."] := by decide

/-! ### Watermark and credit removal from instructions -/

/-- Remove the leftmost suffix of `l` matching `p` (the effect of
`re.sub` with an end-anchored pattern that cannot match the empty
string). -/
def stripSfx (p : List Char → Bool) : List Char → List Char
  | [] => []
  | c :: rest => if p (c :: rest) then [] else c :: stripSfx p rest

def isLowerAscii (c : Char) : Bool := 'a' ≤ c && c ≤ 'z'
def isUpperAscii (c : Char) : Bool := 'A' ≤ c && c ≤ 'Z'
def isAlphaAscii (c : Char) : Bool := isLowerAscii c || isUpperAscii c

/-- The exact watermark strings removed from instructions. -/
def watermarkStrings : List String :=
  ["Dotdash Meredith Food Studios", "DOTDASH MEREDITH FOOD STUDIOS",
   ". Dotdash Meredith Food Studios", ", Dotdash Meredith Food Studios",
   "Meredith Food Studio", "MEREDITH FOOD STUDIO", ". Meredith Food Studio",
   ", Meredith Food Studio", "Serious Eats / Eric Kleinberg",
   "Serious Eats / Vicky Wasik"]

/-- Suffix matcher for `\s*Allrecipes\s*/?\s*[A-Za-z\s]+$` (ignorecase):
optional whitespace, the literal, then an optional slash-separated credit
of letters and whitespace. -/
def predAllrecipesCredit (l : List Char) : Bool :=
  let l1 := l.dropWhile isWsChar
  if startsWithL "allrecipes".data (lowerL l1) then
    let r := l1.drop 10
    (!r.isEmpty && r.all (fun c => isAlphaAscii c || isWsChar c)) ||
    (match r.dropWhile isWsChar with
     | '/' :: r4 => !r4.isEmpty && r4.all (fun c => isAlphaAscii c || isWsChar c)
     | _ => false)
  else false

/-- Suffix matcher for `\s+Allrecipes\s*$` (ignorecase). -/
def predStandaloneAllrecipes (l : List Char) : Bool :=
  !(l.takeWhile isWsChar).isEmpty &&
  (let r := l.dropWhile isWsChar
   startsWithL "allrecipes".data (lowerL r) && (r.drop 10).all isWsChar)

/-- Suffix matcher for `\s+[A-Z][a-z]+(?:\s*/\s*[A-Z][a-z\s]+)?\s*$`:
a trailing capitalized credit, optionally `Site / Name`. -/
def predGenericCredit (l : List Char) : Bool :=
  !(l.takeWhile isWsChar).isEmpty &&
  (match l.dropWhile isWsChar with
   | c :: r =>
     isUpperAscii c &&
     (let lo := r.takeWhile isLowerAscii
      !lo.isEmpty &&
      (let r2 := r.drop lo.length
       r2.all isWsChar ||
       (match r2.dropWhile isWsChar with
        | '/' :: r4 =>
          match r4.dropWhile isWsChar with
          | d :: r6 => isUpperAscii d && !r6.isEmpty &&
              r6.all (fun e => isLowerAscii e || isWsChar e)
          | [] => false
        | _ => false)))
   | [] => false)

/-- The site names stripped from instruction tails. -/
def siteNameStrings : List String :=
  ["allrecipes", "food network", "taste of home", "bon appétit", "serious eats"]

/-- Suffix matcher for `\s+<site>\s*$` (ignorecase). -/
def predSiteName (site : String) (l : List Char) : Bool :=
  !(l.takeWhile isWsChar).isEmpty &&
  (let r := l.dropWhile isWsChar
   startsWithL site.data (lowerL r) && (r.drop site.data.length).all isWsChar)

/-- The per-instruction watermark/credit cleanup of `finalize_response`. -/
def cleanInstWatermarks (s : List Char) : List Char :=
  let s1 := watermarkStrings.foldl (fun acc w => replaceAllL w.data [] acc) s
  let s2 := stripSfx predAllrecipesCredit s1
  let s3 := stripSfx predStandaloneAllrecipes s2
  let s4 := stripSfx predGenericCredit s3
  let s5 := siteNameStrings.foldl (fun acc site => stripSfx (predSiteName site) acc) s4
  let s6 := trimL (replaceAllL "..".data ".".data s5)
  let s7 := trimL (collapseWs1 s6)
  stripTrailingRun (fun c => c = '.' || c = ',' || c = ';' || c = ':' || isWsChar c) s7

/-- The watermark-removal pass over the instruction list: clean each
step and keep only those with more than five characters left. -/
def stripWatermarks (insts : List String) : List String :=
  (insts.map (fun i => cleanInstWatermarks i.data)).foldr
    (fun l acc => if !l.isEmpty && l.length > 5 then String.mk l :: acc else acc) []

example : cleanInstWatermarks "Stir well. Dotdash Meredith Food Studios".data =
    "Stir well".data := by decide
example : stripWatermarks ["Whisk the eggs. Allrecipes/Qi Ai", "Instructions not available."] =
    ["Whisk the eggs", "Instructions not available"] := by decide

/-! ### Title sanitization and URL helpers -/

/-- The suffix of `l` after the first occurrence of `m` (or `[]`). -/
def afterMarker (m : List Char) : List Char → List Char
  | [] => []
  | l@(_ :: rest) => if startsWithL m l then l.drop m.length else afterMarker m rest

/-- Split on a separator character (`str.split(sep)` semantics: empty
pieces are kept). -/
def splitOnChar (sep : Char) : List Char → List (List Char)
  | [] => [[]]
  | c :: rest =>
    if c = sep then [] :: splitOnChar sep rest
    else
      match splitOnChar sep rest with
      | h :: t => (c :: h) :: t
      | [] => [[c]]

/-- `urlparse(url).path` for the absolute http(s) URLs the pipeline
handles: everything from the first `/` after the `://` marker. -/
def urlPath (url : List Char) : List Char :=
  if isSubL "://".data url then
    (afterMarker "://".data url).dropWhile (fun c => c ≠ '/')
  else url

/-- `urlparse(url).netloc` for absolute URLs (else empty). -/
def urlNetloc (url : List Char) : List Char :=
  if isSubL "://".data url then
    (afterMarker "://".data url).takeWhile (fun c => c ≠ '/')
  else []

/-- Python `str.title()` on ASCII letters: uppercase after a non-letter,
lowercase otherwise. -/
def titleCaseAux (prevNonAlpha : Bool) : List Char → List Char
  | [] => []
  | c :: rest =>
    if isAlphaAscii c then
      (if prevNonAlpha then c.toUpper else c.toLower) :: titleCaseAux false rest
    else c :: titleCaseAux true rest

def titleCase (l : List Char) : List Char := titleCaseAux true l

/-- Does `hay` end with `needle`? -/
def endsWithL (needle hay : List Char) : Bool :=
  startsWithL needle.reverse hay.reverse

/-- The `| site` suffixes removed from titles. -/
def siteSuffixes : List String :=
  ["| the kitchn", "- allrecipes", "| food network", "| bon appétit"]

/-- The character class kept by `re.sub(r'[^\w\s\-.,!?]', '', title)`
(ASCII word characters; the pipeline's titles are ASCII). -/
def keepTitleChar (c : Char) : Bool :=
  isAlphaAscii c || isDigitChar c || c = '_' || isWsChar c ||
  c = '-' || c = '.' || c = ',' || c = '!' || c = '?'

/-- `sanitize_title`: derive a title from the URL slug when the title is
missing or a bot wall, otherwise strip site suffixes, emoji and extra
whitespace, capped at 200 characters. -/
def sanitize_title (title : String) (url : String) : String :=
  if title = "" ∨ is_bot_wall title then
    let parts := (splitOnChar '/' (urlPath url.data)).filter
      (fun p => !p.isEmpty && p ≠ "recipe".data)
    match parts.getLast? with
    | some slug =>
        ⟨(titleCase (slug.map (fun c => if c = '-' ∨ c = '_' then ' ' else c))).take 200⟩
    | none => "Recipe"
  else
    let t1 := trimL title.data
    let t2 := siteSuffixes.foldl
      (fun acc sfx => if endsWithL sfx.data (lowerL acc) then
          trimL (acc.take (acc.length - sfx.data.length)) else acc) t1
    let t3 := trimL (collapseWs1 (t2.filter keepTitleChar))
    if t3.isEmpty then "Recipe" else ⟨t3.take 200⟩

example : sanitize_title "Best Brownies 🍫 | Food Network" "https://x.com/a" =
    "Best Brownies" := by decide
example : sanitize_title "Access Denied" "https://www.site.com/recipe/apple-pie" =
    "Apple Pie" := by decide

/-! ### Quality clamping, numeric coercion and `finalize_response` -/

/-- Python `max` on two rationals (agrees with `max`). -/
def pyMax (a b : ℚ) : ℚ := if a ≤ b then b else a

/-- `clamp_quality_score`: post-hoc ceilings for bot walls, short
instruction or ingredient lists, and an image penalty, clamped to [0,1]. -/
def clamp_quality_score (r : Recipe) (base_score : ℚ) : ℚ :=
  let s1 := if is_bot_wall r.title then pyMin base_score (2/5) else base_score
  let s2 := if r.instructions.length < 3 ∨ sentinelStep r then pyMin s1 (2/5) else s1
  let s3 := if r.ingredients.length < 3 then pyMin s2 (1/2) else s2
  let s4 := if r.image = "" ∨ ["logo", "favicon", "placeholder"].any
      (fun w => containsSub (lowerS r.image) w) then pyMax 0 (s3 - 3/20) else s3
  pyMax 0 (pyMin 1 s4)

/-- Python `int(str)`: strip whitespace, optional sign, decimal digits. -/
def pyIntOfString (s : String) : Option Int :=
  let l := trimL s.data
  let sign : Int := match l with
    | '-' :: _ => -1
    | _ => 1
  let l2 := match l with
    | '-' :: r => r
    | '+' :: r => r
    | _ => l
  if !l2.isEmpty && l2.all isDigitChar then some (sign * (natOfDigits l2 : Int))
  else none

/-- `int(x)` for the int-or-str values the finalizer coerces
(a parse failure raises, which the source catches to `None`). -/
def pyIntOfPyV : PyV → Option Int
  | .int n => some n
  | .str s => pyIntOfString s

/-- The servings range validation: value coerced to int, kept only in
2..50, otherwise null — never clamped. -/
def coerceServings (s : Option PyV) : Option Int :=
  match s with
  | none => none
  | some v =>
    match pyIntOfPyV v with
    | none => none
    | some n => if n < 2 ∨ n > 50 then none else some n

/-- The prep-time range validation: `prep_time or prep_time_minutes`
coerced to int, kept only in 1..600, otherwise null. -/
def coercePrep (r : Recipe) : Option Int :=
  let pv := if optTruthy r.prep_time then r.prep_time else r.prep_time_minutes
  match pv with
  | none => none
  | some v =>
    match pyIntOfPyV v with
    | none => none
    | some n => if n < 1 ∨ n > 600 then none else some n

/-- The record state after the finalizer's cleanup passes (ingredient
cleaning, instruction dedup and watermark removal, bot-wall metadata,
title sanitization, site link/name defaults); the quality score and the
numeric coercions are applied after this state. -/
def cleanedRecord (r : Recipe) (url : String) : Recipe :=
  { r with
    ingredients := cleanIngredients r.ingredients
    instructions := stripWatermarks (dedupSteps r.instructions)
    metadata_bot_wall := r.metadata_bot_wall || is_bot_wall r.title
    title := sanitize_title r.title url
    site_link := if strTruthy r.site_link then r.site_link else some url
    site_name := if strTruthy r.site_name then r.site_name
      else some (if (urlNetloc url.data).isEmpty then "Unknown Site"
                 else String.mk (urlNetloc url.data)) }

/-- The finalizer's quality score: the record's existing score if set,
else `calculate_quality_score` of the cleaned record, then clamped. -/
def finalQuality (r : Recipe) (url : String) : ℚ :=
  let r1 := cleanedRecord r url
  clamp_quality_score r1
    (match r.quality_score with
     | some q => q
     | none => calculate_quality_score r1)

/-- The two response shapes of `finalize_response`: the rejection body
`{error, quality_score, reason}` or the finalized recipe payload. -/
inductive FinalResult where
  | reject (error : String) (quality : ℚ) (reason : String)
  | success (r : Recipe)
deriving DecidableEq, Repr

/-- `finalize_response`: cleanup passes, quality scoring, the final
content gate (reject only when both cleaned lists have fewer than two
entries), then servings/prep-time range coercion on the success path.
The nutrition sub-validation, which only rewrites the nutrition block,
is outside the model. -/
def finalize_response (r : Recipe) (url : String) : FinalResult :=
  let r1 := cleanedRecord r url
  let r2 := { r1 with quality_score := some (finalQuality r url) }
  if r1.ingredients.length < 2 ∧ r1.instructions.length < 2 then
    .reject "Recipe extraction failed - no usable content" 0 "no_recipe_content"
  else
    .success { r2 with
      prep_time := (coercePrep r2).map PyV.int
      prep_time_minutes := (coercePrep r2).map PyV.int
      servings := (coerceServings r2.servings).map PyV.int }

/-! ### Theorems about the finalizer -/

/-- C8: the instruction dedup step never empties its output: any
non-empty input list yields at least one element, and when every input
step is filtered out (too short or duplicate) the output is exactly the
sentinel `"Instructions not available."`. -/
theorem dedup_steps_nonempty (l : List String) (_hl : l ≠ []) :
    1 ≤ (dedupSteps l).length ∧
    (dedupStepsAux l [] = [] → dedupSteps l = ["Instructions not available."]) := by
  constructor
  · unfold dedupSteps
    cases hD : dedupStepsAux l [] <;> simp [hD]
  · intro hD
    unfold dedupSteps
    simp [hD]

/-- Witness for C8 at a list whose only step is filtered out as too
short. -/
theorem dedup_steps_nonempty_witness :
    (["ab"] : List String) ≠ [] ∧ 1 ≤ (dedupSteps ["ab"]).length ∧
    (dedupStepsAux ["ab"] [] = [] →
      dedupSteps ["ab"] = ["Instructions not available."]) :=
  ⟨by decide, dedup_steps_nonempty ["ab"] (by decide)⟩

/-- On the success path, the finalizer's output fields are the coerced
inputs (shared helper for the response-shape theorems). -/
lemma finalize_success_eq (r : Recipe) (url : String) (r2 : Recipe)
    (h : finalize_response r url = .success r2) :
    r2.servings = (coerceServings r.servings).map PyV.int ∧
    r2.prep_time = (coercePrep r).map PyV.int ∧
    r2.prep_time_minutes = (coercePrep r).map PyV.int ∧
    r2.quality_score = some (finalQuality r url) := by
  unfold finalize_response at h
  by_cases hg : (cleanedRecord r url).ingredients.length < 2 ∧
      (cleanedRecord r url).instructions.length < 2
  · rw [if_pos hg] at h
    exact absurd h (by simp)
  · rw [if_neg hg] at h
    cases h
    refine ⟨rfl, rfl, rfl, rfl⟩

/-- The finalizer rejects exactly when both cleaned lists are short
(shared helper). -/
lemma finalize_reject_iff (r : Recipe) (url : String) :
    (∃ e q rs, finalize_response r url = .reject e q rs) ↔
      ((cleanIngredients r.ingredients).length < 2 ∧
       (stripWatermarks (dedupSteps r.instructions)).length < 2) := by
  unfold finalize_response
  by_cases hg : (cleanedRecord r url).ingredients.length < 2 ∧
      (cleanedRecord r url).instructions.length < 2
  · rw [if_pos hg]
    constructor
    · intro
      exact hg
    · intro
      exact ⟨_, _, _, rfl⟩
  · rw [if_neg hg]
    constructor
    · rintro ⟨e, q, rs, h⟩
      exact absurd h (by simp)
    · intro hc
      exact absurd hc hg

/-- The rejection body is always the fixed no-content failure (shared
helper). -/
lemma finalize_reject_vals (r : Recipe) (url : String) (e : String) (q : ℚ)
    (rs : String) (h : finalize_response r url = .reject e q rs) :
    e = "Recipe extraction failed - no usable content" ∧ q = 0 ∧
    rs = "no_recipe_content" := by
  unfold finalize_response at h
  by_cases hg : (cleanedRecord r url).ingredients.length < 2 ∧
      (cleanedRecord r url).instructions.length < 2
  · rw [if_pos hg] at h
    have := FinalResult.reject.inj h
    exact ⟨this.1.symm, this.2.1.symm, this.2.2.symm⟩
  · rw [if_neg hg] at h
    exact absurd h (by simp)

/-- C9: the finalizer's rejection gate fires iff BOTH the cleaned
ingredients list and the cleaned instructions list have fewer than two
entries; the rejection body carries quality_score 0.0 and reason
`no_recipe_content`; a record with two entries in either list always
comes back as a success payload, whatever its quality score. -/
theorem finalize_rejection_gate (r : Recipe) (url : String) :
    ((∃ e q rs, finalize_response r url = .reject e q rs) ↔
      ((cleanIngredients r.ingredients).length < 2 ∧
       (stripWatermarks (dedupSteps r.instructions)).length < 2)) ∧
    (∀ e q rs, finalize_response r url = .reject e q rs →
      e = "Recipe extraction failed - no usable content" ∧ q = 0 ∧
      rs = "no_recipe_content") ∧
    (¬ ((cleanIngredients r.ingredients).length < 2 ∧
        (stripWatermarks (dedupSteps r.instructions)).length < 2) →
      ∃ r2, finalize_response r url = .success r2) := by
  refine ⟨finalize_reject_iff r url, fun e q rs h => finalize_reject_vals r url e q rs h, ?_⟩
  intro hc
  unfold finalize_response
  rw [if_neg (show ¬ ((cleanedRecord r url).ingredients.length < 2 ∧
      (cleanedRecord r url).instructions.length < 2) from hc)]
  exact ⟨_, rfl⟩

/-- Witness for C9 at the empty record, which the gate rejects. -/
theorem finalize_rejection_gate_witness :
    finalize_response {} "https://x.com/a" =
      .reject "Recipe extraction failed - no usable content" 0 "no_recipe_content" ∧
    (0 : ℚ) = 0 :=
  have hEq : finalize_response {} "https://x.com/a" =
      .reject "Recipe extraction failed - no usable content" 0 "no_recipe_content" := by
    with_unfolding_all decide
  ⟨hEq, ((finalize_rejection_gate {} "https://x.com/a").2.1 _ _ _ hEq).2.1⟩

/-- C4: the finalizer coerces out-of-range numerics to null and never
clamps: on every success, servings and prep time in the payload are the
range-coerced inputs; servings 1 and 75 become null, 6 stays 6, any
in-range value is kept verbatim, and any prep time outside 1..600
becomes null. -/
theorem finalize_coerces_out_of_range (r : Recipe) (url : String) (r2 : Recipe)
    (h : finalize_response r url = .success r2) :
    r2.servings = (coerceServings r.servings).map PyV.int ∧
    r2.prep_time = (coercePrep r).map PyV.int ∧
    coerceServings (some (.int 1)) = none ∧
    coerceServings (some (.int 6)) = some 6 ∧
    coerceServings (some (.int 75)) = none ∧
    (∀ n : ℤ, 2 ≤ n → n ≤ 50 → coerceServings (some (.int n)) = some n) ∧
    (∀ n : ℤ, (n < 1 ∨ 600 < n) →
      coercePrep { prep_time := some (.int n) } = none) := by
  obtain ⟨h1, h2, _, _⟩ := finalize_success_eq r url r2 h
  refine ⟨h1, h2, by decide, by decide, by decide, ?_, ?_⟩
  · intro n hlo hhi
    have hcond : ¬ (n < 2 ∨ n > 50) := by omega
    simp [coerceServings, pyIntOfPyV, hcond]
  · intro n hn
    by_cases hn0 : n = 0
    · subst hn0
      decide
    · have hcond : n < 1 ∨ n > 600 := by omega
      simp [coercePrep, optTruthy, PyV.truthy, hn0, pyIntOfPyV, hcond]

/-- Witness for C4: a concrete record with servings 6 and prep time 30
finalizes to a success carrying servings 6. -/
theorem finalize_coerces_out_of_range_witness :
    finalize_response
      { title := "Apple Pie", ingredients := ["2 cups flour", "3 eggs"],
        instructions := ["Mix well everything.", "Bake for an hour."],
        servings := some (.int 6), prep_time := some (.int 30) }
      "https://example.com/pie" =
    .success
      { title := "Apple Pie", ingredients := ["2 cups flour", "3 eggs"],
        instructions := ["Mix well everything", "Bake for an hour"],
        servings := some (.int 6), prep_time := some (.int 30),
        prep_time_minutes := some (.int 30), quality_score := some (1/4),
        site_link := some "https://example.com/pie",
        site_name := some "example.com" } ∧
    (Recipe.servings
      { title := "Apple Pie", ingredients := ["2 cups flour", "3 eggs"],
        instructions := ["Mix well everything", "Bake for an hour"],
        servings := some (.int 6), prep_time := some (.int 30),
        prep_time_minutes := some (.int 30), quality_score := some (1/4),
        site_link := some "https://example.com/pie",
        site_name := some "example.com" }) = some (.int 6) :=
  have hEq : finalize_response
      { title := "Apple Pie", ingredients := ["2 cups flour", "3 eggs"],
        instructions := ["Mix well everything.", "Bake for an hour."],
        servings := some (.int 6), prep_time := some (.int 30) }
      "https://example.com/pie" =
    .success
      { title := "Apple Pie", ingredients := ["2 cups flour", "3 eggs"],
        instructions := ["Mix well everything", "Bake for an hour"],
        servings := some (.int 6), prep_time := some (.int 30),
        prep_time_minutes := some (.int 30), quality_score := some (1/4),
        site_link := some "https://example.com/pie",
        site_name := some "example.com" } := by
    with_unfolding_all decide
  ⟨hEq, ((finalize_coerces_out_of_range _ _ _ hEq).1).trans (by decide)⟩

/-- C3 counterexample: a record whose computed final quality score is
exactly 0.0 (its title contains "404", so the scorer hard-rejects it) is
nevertheless returned by `finalize_response` as an ordinary success
payload, because it has three cleaned ingredients: quality_score 0.0
does NOT imply rejection. -/
theorem zero_quality_returned_as_success_counterexample :
    finalize_response
      { title := "My 404 Cookies",
        ingredients := ["2 cups flour", "3 eggs", "1 cup milk"],
        instructions := ["Mix well everything.", "Bake for an hour.",
                         "Cool on a rack."],
        servings := some (.int 4) }
      "https://example.com/cookies" =
    .success
      { title := "My 404 Cookies",
        ingredients := ["2 cups flour", "3 eggs", "1 cup milk"],
        instructions := ["Mix well everything", "Bake for an hour",
                         "Cool on a rack"],
        servings := some (.int 4), quality_score := some 0,
        site_link := some "https://example.com/cookies",
        site_name := some "example.com" } := by
  with_unfolding_all decide

/-- C3 amended: a record whose final quality score is 0.0 is returned as
a rejection only when both its cleaned lists have fewer than two
entries; otherwise it is returned as an ordinary success payload that
still carries quality_score 0.0. -/
theorem zero_quality_success_amended (r : Recipe) (url : String)
    (hq : finalQuality r url = 0) :
    ((∃ e q rs, finalize_response r url = .reject e q rs) ↔
      ((cleanIngredients r.ingredients).length < 2 ∧
       (stripWatermarks (dedupSteps r.instructions)).length < 2)) ∧
    (∀ r2, finalize_response r url = .success r2 →
      r2.quality_score = some 0) := by
  refine ⟨finalize_reject_iff r url, ?_⟩
  intro r2 h
  rw [(finalize_success_eq r url r2 h).2.2.2, hq]

/-- Witness for C3 amended at a concrete zero-quality record that
finalizes to a success. -/
theorem zero_quality_success_amended_witness :
    finalQuality
      { title := "Broken 404 Dinner",
        ingredients := ["2 cups rice", "1 cup beans"],
        instructions := ["Cook the rice well.", "Warm the beans gently."] }
      "https://example.com/dinner" = 0 ∧
    (Recipe.quality_score
      { title := "Broken 404 Dinner",
        ingredients := ["2 cups rice", "1 cup beans"],
        instructions := ["Cook the rice well", "Warm the beans gently"],
        quality_score := some 0,
        site_link := some "https://example.com/dinner",
        site_name := some "example.com" }) = some 0 :=
  have hq : finalQuality
      { title := "Broken 404 Dinner",
        ingredients := ["2 cups rice", "1 cup beans"],
        instructions := ["Cook the rice well.", "Warm the beans gently."] }
      "https://example.com/dinner" = 0 := by
    with_unfolding_all decide
  have hEq : finalize_response
      { title := "Broken 404 Dinner",
        ingredients := ["2 cups rice", "1 cup beans"],
        instructions := ["Cook the rice well.", "Warm the beans gently."] }
      "https://example.com/dinner" =
    .success
      { title := "Broken 404 Dinner",
        ingredients := ["2 cups rice", "1 cup beans"],
        instructions := ["Cook the rice well", "Warm the beans gently"],
        quality_score := some 0,
        site_link := some "https://example.com/dinner",
        site_name := some "example.com" } := by
    with_unfolding_all decide
  ⟨hq, (zero_quality_success_amended _ _ hq).2 _ hEq⟩

/-! ### Video-path servings default (C10) -/

/-- The YouTube/TikTok post-extraction servings fix-up: absent servings
become the string "4", int servings are stringified, strings are kept. -/
def videoServingsDefault : Option PyV → Option PyV
  | none => some (.str "4")
  | some (.int n) => some (.str (toString n))
  | some (.str t) => some (.str t)

/-- The video-path post-processing applied to an extracted record before
`finalize_response` (servings default, site link/name defaults, prep
default 0, quality score).  The image/source_url defaults act on keys
the model already carries as total fields. -/
def videoPostProcess (r : Recipe) (url site : String) : Recipe :=
  let r1 := { r with servings := videoServingsDefault r.servings }
  let r2 := { r1 with
    site_link := if r1.site_link = none then some url else r1.site_link
    site_name := if r1.site_name = none then some site else r1.site_name
    prep_time_minutes :=
      if r1.prep_time_minutes = none ∧ r1.prep_time = none then some (.int 0)
      else r1.prep_time_minutes }
  { r2 with quality_score := some (calculate_quality_score r2) }

/-- C10: on the video paths, a record extracted with no servings value is
given the string "4" before finalization, and every success payload the
finalizer returns for it reports servings = 4 — never null. -/
theorem video_missing_servings_defaults (r : Recipe) (url site : String)
    (h : r.servings = none) :
    (videoPostProcess r url site).servings = some (.str "4") ∧
    (∀ r2, finalize_response (videoPostProcess r url site) url = .success r2 →
      r2.servings = some (.int 4)) := by
  have hs : (videoPostProcess r url site).servings = some (.str "4") := by
    simp [videoPostProcess, videoServingsDefault, h]
  refine ⟨hs, ?_⟩
  intro r2 h2
  rw [(finalize_success_eq _ _ _ h2).1, hs]
  decide

/-- Witness for C10: a video-extracted record with no servings value is
patched to the string "4" and finalizes to a success reporting
servings 4. -/
theorem video_missing_servings_defaults_witness :
    (videoPostProcess
      { title := "Ramen Noodles", ingredients := ["2 cups broth", "1 pack noodles"],
        instructions := ["Boil the broth well.", "Add noodles and cook."] }
      "https://youtube.com/watch" "YouTube").servings = some (.str "4") ∧
    (Recipe.servings
      { title := "Ramen Noodles", ingredients := ["2 cups broth", "1 pack noodles"],
        instructions := ["Boil the broth well", "Add noodles and cook"],
        servings := some (.int 4), quality_score := some (1/4),
        site_link := some "https://youtube.com/watch",
        site_name := some "YouTube" }) = some (.int 4) :=
  have hA := video_missing_servings_defaults
    { title := "Ramen Noodles", ingredients := ["2 cups broth", "1 pack noodles"],
      instructions := ["Boil the broth well.", "Add noodles and cook."] }
    "https://youtube.com/watch" "YouTube" rfl
  have hEq : finalize_response
      (videoPostProcess
        { title := "Ramen Noodles", ingredients := ["2 cups broth", "1 pack noodles"],
          instructions := ["Boil the broth well.", "Add noodles and cook."] }
        "https://youtube.com/watch" "YouTube")
      "https://youtube.com/watch" =
    .success
      { title := "Ramen Noodles", ingredients := ["2 cups broth", "1 pack noodles"],
        instructions := ["Boil the broth well", "Add noodles and cook"],
        servings := some (.int 4), quality_score := some (1/4),
        site_link := some "https://youtube.com/watch",
        site_name := some "YouTube" } := by
    with_unfolding_all decide
  ⟨hA.1, hA.2 _ hEq⟩

/-! ### Idempotence analysis of `_normalize_text` (C7) -/

/-- C7 counterexample: the anchored `LIST_PREFIX` substitution strips
only one leading list marker per pass, so a doubly-marked string keeps
changing under repeated normalization: normalize("1. 2. foo") is
"2. foo" but normalizing again gives "foo". -/
theorem normalize_idempotent_counterexample :
    normalize_text (normalize_text "1. 2. foo") ≠ normalize_text "1. 2. foo" := by
  decide

lemma trimL_eq_rdropWhile (l : List Char) :
    trimL l = List.rdropWhile isWsChar (List.dropWhile isWsChar l) := rfl

lemma dropWhile_rdropWhile_eq_self {m : List Char}
    (hm : List.dropWhile isWsChar m = m) :
    List.dropWhile isWsChar (List.rdropWhile isWsChar m) =
      List.rdropWhile isWsChar m := by
  obtain ⟨t, ht⟩ := List.rdropWhile_prefix isWsChar m
  cases hr : List.rdropWhile isWsChar m with
  | nil => simp
  | cons c cs =>
    rw [hr] at ht
    have hmc : m = c :: (cs ++ t) := by
      rw [← ht]
      simp
    rw [List.dropWhile_cons]
    by_cases hc : isWsChar c
    · exfalso
      rw [hmc, List.dropWhile_cons, if_pos hc] at hm
      have h1 : (List.dropWhile isWsChar (cs ++ t)).length ≤ (cs ++ t).length :=
        (List.dropWhile_suffix isWsChar).length_le
      rw [hm] at h1
      simp only [List.length_cons, List.length_append] at h1
      omega
    · rw [if_neg hc]

lemma trimL_idem (l : List Char) : trimL (trimL l) = trimL l := by
  rw [trimL_eq_rdropWhile, trimL_eq_rdropWhile,
    dropWhile_rdropWhile_eq_self (List.dropWhile_idempotent _ _),
    List.rdropWhile_idempotent]

lemma trimL_isInfix (l : List Char) : trimL l <:+: l := by
  obtain ⟨u, hu⟩ := List.rdropWhile_prefix isWsChar (l.dropWhile isWsChar)
  obtain ⟨v, hv⟩ := List.dropWhile_suffix (p := isWsChar) (l := l)
  refine ⟨v, u, ?_⟩
  rw [trimL_eq_rdropWhile, List.append_assoc, hu, hv]

lemma mem_of_mem_trimL {c : Char} {l : List Char} (hc : c ∈ trimL l) : c ∈ l :=
  (trimL_isInfix l).sublist.subset hc

lemma stripListMarker_suffix (l : List Char) : stripListMarker l <:+ l := by
  unfold stripListMarker
  have hrs : l.dropWhile isWsChar <:+ l := List.dropWhile_suffix _
  by_cases h1 : ((l.dropWhile isWsChar).takeWhile isDigitChar).isEmpty
  · simp only [h1, Bool.not_true, Bool.false_eq_true, if_false]
    cases hm : l.dropWhile isWsChar with
    | nil => exact List.suffix_refl l
    | cons c r2 =>
      by_cases hd : isDashBullet c
      · by_cases hw : (r2.takeWhile isWsChar).isEmpty
        · simp [hd, hw]
        · simp only [hd, hw, Bool.not_false, if_true]
          refine ((List.dropWhile_suffix _).trans ?_).trans hrs
          rw [hm]
          exact ⟨[c], rfl⟩
      · simp [hd]
  · simp only [h1, Bool.not_false, if_true]
    cases hm : ((l.dropWhile isWsChar).drop
        ((l.dropWhile isWsChar).takeWhile isDigitChar).length).dropWhile isWsChar with
    | nil => exact List.suffix_refl l
    | cons c r3 =>
      by_cases hc : c = '.' ∨ c = ')'
      · simp only [hc, if_true]
        refine (List.dropWhile_suffix _).trans ?_
        have h2 : r3 <:+ c :: r3 := ⟨[c], rfl⟩
        refine h2.trans ?_
        rw [← hm]
        exact ((List.dropWhile_suffix _).trans (List.drop_suffix _ _)).trans hrs
      · simp [hc]

lemma mem_of_mem_stripListMarker {c : Char} {l : List Char}
    (hc : c ∈ stripListMarker l) : c ∈ l :=
  (stripListMarker_suffix l).sublist.subset hc

/-- Characters that both character-cleanup maps leave alone. -/
def CleanChars (l : List Char) : Prop :=
  ∀ c ∈ l, charCleanA c = [c] ∧ charCleanB c = [c]

/-- Every character `charCleanA` emits is itself left alone by
`charCleanA` (its outputs are space and dash). -/
lemma charCleanA_clean {c d : Char} (hd : d ∈ charCleanA c) :
    charCleanA d = [d] := by
  unfold charCleanA at hd
  split_ifs at hd with h1 h2 h3
  · simp at hd
    subst hd
    decide
  · simp at hd
  · simp at hd
    subst hd
    decide
  · simp at hd
    subst hd
    unfold charCleanA
    rw [if_neg h1, if_neg h2, if_neg h3]

/-- Characters of a `replaceAllF` output come from the replacement
string or the input. -/
lemma mem_replaceAllF {d : Char} {old new : List Char} :
    ∀ (f : Nat) (l : List Char), d ∈ replaceAllF old new f l → d ∈ new ∨ d ∈ l
  | 0, _, h => Or.inr h
  | _ + 1, [], h => by simp [replaceAllF] at h
  | f + 1, c :: rest, h => by
    unfold replaceAllF at h
    by_cases hs : !old.isEmpty && startsWithL old (c :: rest)
    · simp only [hs, if_true] at h
      rcases List.mem_append.mp h with h2 | h2
      · exact Or.inl h2
      · rcases mem_replaceAllF f _ h2 with h3 | h3
        · exact Or.inl h3
        · exact Or.inr ((List.drop_suffix _ _).sublist.subset h3)
    · simp only [hs, Bool.false_eq_true, if_false] at h
      rcases List.mem_cons.mp h with h2 | h2
      · exact Or.inr (h2 ▸ List.mem_cons_self c rest)
      · rcases mem_replaceAllF f rest h2 with h3 | h3
        · exact Or.inl h3
        · exact Or.inr (List.mem_cons_of_mem c h3)

/-- The output of the unescape-free cleanup chain of `normalizeText`
consists of characters both cleanup maps leave alone. -/
lemma cleanChars_chain (x : List Char) :
    CleanChars ((replaceAllL mangledQuotePattern ['"']
      (x.flatMap charCleanA)).flatMap charCleanB) := by
  intro c hc
  rw [List.mem_flatMap] at hc
  obtain ⟨a, ha, hca⟩ := hc
  have haA : charCleanA a = [a] := by
    rcases mem_replaceAllF _ _ ha with h | h
    · simp at h
      subst h
      decide
    · rw [List.mem_flatMap] at h
      obtain ⟨b, _, hb⟩ := h
      exact charCleanA_clean hb
  unfold charCleanB at hca
  split_ifs at hca with h1 h2 h3
  · simp at hca
  · simp at hca
    subst hca
    exact ⟨by decide, by decide⟩
  · simp at hca
  · simp at hca
    subst hca
    refine ⟨haA, ?_⟩
    unfold charCleanB
    rw [if_neg h1, if_neg h2, if_neg h3]

/-- A character map that fixes every character of a list fixes the
list under `flatMap`. -/
lemma flatMap_eq_self {f : Char → List Char} {l : List Char}
    (h : ∀ c ∈ l, f c = [c]) : l.flatMap f = l := by
  induction l with
  | nil => rfl
  | cons c rest ih =>
    rw [List.flatMap_cons, h c (List.mem_cons_self c rest),
      ih (fun d hd => h d (List.mem_cons_of_mem c hd))]
    rfl

lemma mem_collapseWsAux {c : Char} :
    ∀ (l : List Char) (b : Bool), c ∈ collapseWsAux b l → c ∈ l ∨ c = ' '
  | [], b, hc => by simp [collapseWsAux] at hc
  | a :: rest, b, hc => by
    unfold collapseWsAux at hc
    by_cases hwa : isWsChar a
    · cases b with
      | true =>
        simp only [hwa, if_true] at hc
        rcases mem_collapseWsAux rest true hc with h | h
        · exact Or.inl (List.mem_cons_of_mem a h)
        · exact Or.inr h
      | false =>
        simp only [hwa, if_true, Bool.false_eq_true, if_false] at hc
        cases rest with
        | nil =>
          simp at hc
          exact Or.inl (by simp [hc])
        | cons d r2 =>
          by_cases hwd : isWsChar d
          · simp only [hwd, if_true] at hc
            rcases List.mem_cons.mp hc with h | h
            · exact Or.inr h
            · rcases mem_collapseWsAux (d :: r2) true h with h2 | h2
              · exact Or.inl (List.mem_cons_of_mem a h2)
              · exact Or.inr h2
          · simp only [hwd, Bool.false_eq_true, if_false] at hc
            rcases List.mem_cons.mp hc with h | h
            · exact Or.inl (h ▸ List.mem_cons_self a (d :: r2))
            · rcases mem_collapseWsAux (d :: r2) false h with h2 | h2
              · exact Or.inl (List.mem_cons_of_mem a h2)
              · exact Or.inr h2
    · simp only [hwa, Bool.false_eq_true, if_false] at hc
      rcases List.mem_cons.mp hc with h | h
      · exact Or.inl (h ▸ List.mem_cons_self a rest)
      · rcases mem_collapseWsAux rest false h with h2 | h2
        · exact Or.inl (List.mem_cons_of_mem a h2)
        · exact Or.inr h2

lemma cleanChars_collapseWs {l : List Char} (h : CleanChars l) :
    CleanChars (collapseWs l) := by
  intro c hc
  rcases mem_collapseWsAux l false hc with h2 | h2
  · exact h c h2
  · subst h2
    exact ⟨by decide, by decide⟩

lemma cleanChars_trimL {l : List Char} (h : CleanChars l) : CleanChars (trimL l) :=
  fun c hc => h c (mem_of_mem_trimL hc)

lemma cleanChars_stripListMarker {l : List Char} (h : CleanChars l) :
    CleanChars (stripListMarker l) :=
  fun c hc => h c (mem_of_mem_stripListMarker hc)

lemma htmlUnescapeF_no_amp : ∀ (f : Nat) (l : List Char), '&' ∉ l →
    htmlUnescapeF f l = l
  | 0, _, _ => rfl
  | _ + 1, [], _ => rfl
  | f + 1, c :: rest, h => by
    have hc : ¬ c = '&' := fun hh => h (hh ▸ List.mem_cons_self c rest)
    have hr : '&' ∉ rest := fun hh => h (List.mem_cons_of_mem c hh)
    simp only [htmlUnescapeF, hc, Bool.false_eq_true, if_false]
    rw [htmlUnescapeF_no_amp f rest hr]

lemma htmlUnescape_no_amp {l : List Char} (h : '&' ∉ l) : htmlUnescape l = l :=
  htmlUnescapeF_no_amp l.length l h

/-- No two adjacent whitespace characters. -/
def noWW : List Char → Bool
  | [] => true
  | [_] => true
  | a :: b :: rest => !(isWsChar a && isWsChar b) && noWW (b :: rest)

lemma noWW_cons_cons (a b : Char) (l : List Char) :
    noWW (a :: b :: l) = (!(isWsChar a && isWsChar b) && noWW (b :: l)) := rfl

lemma noWW_iff_chain' (l : List Char) :
    noWW l = true ↔
      List.Chain' (fun a b => ¬(isWsChar a = true ∧ isWsChar b = true)) l := by
  induction l with
  | nil => simp [noWW]
  | cons a rest ih =>
    cases rest with
    | nil => simp [noWW]
    | cons b r2 =>
      rw [List.chain'_cons, ← ih, noWW_cons_cons]
      rw [Bool.and_eq_true, Bool.not_eq_true', Bool.and_eq_false_iff]
      constructor
      · rintro ⟨h1, h2⟩
        refine ⟨?_, ?_⟩
        · rintro ⟨ha, hb⟩
          rcases h1 with h | h
          · rw [ha] at h
            exact absurd h (by simp)
          · rw [hb] at h
            exact absurd h (by simp)
        · exact h2
      · rintro ⟨h1, h2⟩
        refine ⟨?_, ?_⟩
        · by_cases ha : isWsChar a
          · by_cases hb : isWsChar b
            · exact absurd ⟨ha, hb⟩ h1
            · exact Or.inr (by simpa using hb)
          · exact Or.inl (by simpa using ha)
        · exact h2

lemma noWW_tail {a : Char} {l : List Char} (h : noWW (a :: l) = true) :
    noWW l = true := by
  cases l with
  | nil => rfl
  | cons b r =>
    rw [noWW_cons_cons] at h
    exact (Bool.and_eq_true .. |>.mp h).2

/-- Head of the skip-state collapser output is never whitespace. -/
lemma collapseWsAux_true_head :
    ∀ (l : List Char) (d : Char), (collapseWsAux true l).head? = some d →
      isWsChar d = false
  | [], d, h => by simp [collapseWsAux] at h
  | c :: rest, d, h => by
    unfold collapseWsAux at h
    by_cases hw : isWsChar c
    · simp only [hw, if_true] at h
      exact collapseWsAux_true_head rest d h
    · simp only [hw, Bool.false_eq_true, if_false, List.head?_cons,
        Option.some.injEq] at h
      rw [← h]
      simpa using hw

lemma noWW_cons_of {c : Char} {l : List Char}
    (hl : noWW l = true)
    (hh : ∀ d, l.head? = some d → ¬(isWsChar c = true ∧ isWsChar d = true)) :
    noWW (c :: l) = true := by
  cases l with
  | nil => rfl
  | cons b r =>
    rw [noWW_cons_cons]
    rw [Bool.and_eq_true, Bool.not_eq_true', Bool.and_eq_false_iff]
    refine ⟨?_, hl⟩
    have := hh b (by simp)
    by_cases hc : isWsChar c
    · by_cases hb : isWsChar b
      · exact absurd ⟨hc, hb⟩ this
      · exact Or.inr (by simpa using hb)
    · exact Or.inl (by simpa using hc)

lemma noWW_collapseWsAux : ∀ (l : List Char) (b : Bool),
    noWW (collapseWsAux b l) = true
  | [], b => rfl
  | c :: rest, b => by
    unfold collapseWsAux
    by_cases hw : isWsChar c
    · cases b with
      | true =>
        simp only [hw, if_true]
        exact noWW_collapseWsAux rest true
      | false =>
        simp only [hw, if_true, Bool.false_eq_true, if_false]
        cases rest with
        | nil => rfl
        | cons d r2 =>
          by_cases hwd : isWsChar d
          · simp only [hwd, if_true]
            refine noWW_cons_of (noWW_collapseWsAux (d :: r2) true) ?_
            intro e he hcon
            rw [collapseWsAux_true_head (d :: r2) e he] at hcon
            exact absurd hcon.2 (by simp)
          · simp only [hwd, Bool.false_eq_true, if_false]
            refine noWW_cons_of (noWW_collapseWsAux (d :: r2) false) ?_
            intro e he hcon
            unfold collapseWsAux at he
            simp only [hwd, Bool.false_eq_true, if_false, List.head?_cons,
              Option.some.injEq] at he
            rw [← he] at hcon
            exact absurd hcon.2 (by simpa using hwd)
    · simp only [hw, Bool.false_eq_true, if_false]
      refine noWW_cons_of (noWW_collapseWsAux rest false) ?_
      intro e _ hcon
      exact absurd hcon.1 (by simpa using hw)

lemma noWW_collapseWs (l : List Char) : noWW (collapseWs l) = true :=
  noWW_collapseWsAux l false

lemma noWW_trimL {l : List Char} (h : noWW l = true) : noWW (trimL l) = true := by
  rw [noWW_iff_chain'] at h ⊢
  exact h.infix (trimL_isInfix l)

lemma collapseWsAux_false_eq_self : ∀ (l : List Char), noWW l = true →
    collapseWsAux false l = l
  | [], _ => rfl
  | c :: rest, h => by
    have hrest := noWW_tail h
    unfold collapseWsAux
    by_cases hw : isWsChar c
    · cases rest with
      | nil => simp [hw]
      | cons d r2 =>
        have hd : isWsChar d = false := by
          rw [noWW_cons_cons, Bool.and_eq_true, Bool.not_eq_true',
            Bool.and_eq_false_iff] at h
          rcases h.1 with h1 | h1
          · rw [hw] at h1
            exact absurd h1 (by simp)
          · exact h1
        simp only [hw, if_true, Bool.false_eq_true, if_false, hd]
        rw [collapseWsAux_false_eq_self (d :: r2) hrest]
    · simp only [hw, Bool.false_eq_true, if_false]
      rw [collapseWsAux_false_eq_self rest hrest]

lemma collapseWs_eq_self {l : List Char} (h : noWW l = true) :
    collapseWs l = l :=
  collapseWsAux_false_eq_self l h

set_option maxHeartbeats 1000000 in
/-- C7 amended: one normalization pass is a fixed point of a second pass
except through three residues: a leading list marker that the single
anchored substitution of the first pass left behind, HTML entities that
survive one unescape (nested escapes), and an occurrence of the
fifteen-character mangled-literal pattern that the punctuation line
rewrites (the first pass can create one by collapsing whitespace).  For
every string whose normalization contains no ampersand, is unchanged by
the list-marker strip, and is unchanged by the mangled-literal
replacement, normalize(normalize(s)) = normalize(s). -/
theorem normalize_idempotent_amended (s : String)
    (hamp : '&' ∉ (normalize_text s).data)
    (hmark : stripListMarker (normalize_text s).data = (normalize_text s).data)
    (hfreak : replaceAllL mangledQuotePattern ['"'] (normalize_text s).data =
      (normalize_text s).data) :
    normalize_text (normalize_text s) = normalize_text s := by
  have hdata : (normalize_text s).data = normalizeText s.data := rfl
  rw [hdata] at hamp hmark hfreak
  set t := normalizeText s.data with ht
  have hclean : CleanChars t := by
    rw [ht]
    unfold normalizeText
    exact cleanChars_trimL (cleanChars_collapseWs (cleanChars_stripListMarker
      (cleanChars_trimL (cleanChars_chain _))))
  have hnoww : noWW t = true := by
    rw [ht]
    unfold normalizeText
    exact noWW_trimL (noWW_collapseWs _)
  have htrim : trimL t = t := by
    rw [ht]
    unfold normalizeText
    exact trimL_idem _
  show ⟨normalizeText (normalize_text s).data⟩ = normalize_text s
  rw [hdata]
  unfold normalizeText
  rw [htmlUnescape_no_amp hamp,
    flatMap_eq_self (fun c hc => (hclean c hc).1), hfreak,
    flatMap_eq_self (fun c hc => (hclean c hc).2), htrim, hmark,
    collapseWs_eq_self hnoww, htrim]
  rfl

example : normalize_text (normalize_text
    ⟨['a', ',', ' ', ' ', '\'', '"', '\'', ')', '.', 'r', 'e', 'p', 'l', 'a',
      'c', 'e', '(', ' ', 'b']⟩) ≠
  normalize_text
    ⟨['a', ',', ' ', ' ', '\'', '"', '\'', ')', '.', 'r', 'e', 'p', 'l', 'a',
      'c', 'e', '(', ' ', 'b']⟩ := by decide

/-- Witness for C7 amended: a string with doubled internal spaces whose
single pass is idempotent. -/
theorem normalize_idempotent_amended_witness :
    ('&' ∉ (normalize_text "  Mix  the dough  ").data) ∧
    stripListMarker (normalize_text "  Mix  the dough  ").data =
      (normalize_text "  Mix  the dough  ").data ∧
    replaceAllL mangledQuotePattern ['"']
        (normalize_text "  Mix  the dough  ").data =
      (normalize_text "  Mix  the dough  ").data ∧
    normalize_text (normalize_text "  Mix  the dough  ") =
      normalize_text "  Mix  the dough  " :=
  ⟨by decide, by decide, by decide,
   normalize_idempotent_amended "  Mix  the dough  "
     (by decide) (by decide) (by decide)⟩

end LFL
